import Mathlib

/-!
Shallow embedding of the tfwdev/sceneeditor selection and camera components
(src/components.ts) over the rationals.  Finite scalars are modelled as `ℚ`;
the host math library (tfw/core/math, a re-export of gl-matrix) is
translated operation by operation.  Where the float code can leave the
finite range — the plane-distance division of `Plane.intersectRay`, whose
divisor is zero for a ray parallel to the plane — the result is modelled
explicitly as finite, `+∞`, `-∞` or NaN (`JsNum`), and the non-finite
intersection point such a `+∞` distance produces, together with its
propagation through the drag handlers, is tracked by dedicated
constructors (`XZHit.nonFinite`, `JsVec3.nonFinite`, `DragEdit.nonFinite`)
rather than collapsed into a failure path.
-/

namespace SceneEditor

/-- JavaScript `Math.round`: round half toward positive infinity.
    `vec3.round` in the gl-matrix version used by tfw applies `Math.round`
    componentwise. -/
def jsRound (q : ℚ) : ℚ := (⌊q + 1/2⌋ : ℤ)

/-- Triple of rationals standing for a gl-matrix `vec3`. -/
structure Vec3 where
  x : ℚ
  y : ℚ
  z : ℚ
deriving DecidableEq, Repr

namespace Vec3

/-- gl-matrix `vec3.create()`. -/
def create : Vec3 := ⟨0, 0, 0⟩

/-- gl-matrix `vec3.fromValues`. -/
def fromValues (a b c : ℚ) : Vec3 := ⟨a, b, c⟩

/-- gl-matrix `vec3.add`. -/
def add (a b : Vec3) : Vec3 := ⟨a.x + b.x, a.y + b.y, a.z + b.z⟩

/-- gl-matrix `vec3.subtract`. -/
def sub (a b : Vec3) : Vec3 := ⟨a.x - b.x, a.y - b.y, a.z - b.z⟩

/-- gl-matrix `vec3.scale` (vector times scalar). -/
def scale (a : Vec3) (k : ℚ) : Vec3 := ⟨k * a.x, k * a.y, k * a.z⟩

/-- gl-matrix `vec3.scaleAndAdd out = a + b * k`. -/
def scaleAndAdd (a b : Vec3) (k : ℚ) : Vec3 := ⟨a.x + b.x * k, a.y + b.y * k, a.z + b.z * k⟩

/-- gl-matrix `vec3.round` (componentwise `Math.round`). -/
def round (a : Vec3) : Vec3 := ⟨jsRound a.x, jsRound a.y, jsRound a.z⟩

/-- gl-matrix `vec3.min` (componentwise minimum). -/
def vmin (a b : Vec3) : Vec3 := ⟨min a.x b.x, min a.y b.y, min a.z b.z⟩

/-- gl-matrix `vec3.max` (componentwise maximum). -/
def vmax (a b : Vec3) : Vec3 := ⟨max a.x b.x, max a.y b.y, max a.z b.z⟩

/-- gl-matrix `vec3.dot`. -/
def dot (a b : Vec3) : ℚ := a.x * b.x + a.y * b.y + a.z * b.z

/-- gl-matrix `vec3.cross`. -/
def cross (a b : Vec3) : Vec3 :=
  ⟨a.y * b.z - a.z * b.y, a.z * b.x - a.x * b.z, a.x * b.y - a.y * b.x⟩

theorem ext_iff {a b : Vec3} : a = b ↔ a.x = b.x ∧ a.y = b.y ∧ a.z = b.z := by
  cases a; cases b; simp

end Vec3

/-- Quaternion over `ℚ`, standing for a gl-matrix `quat` `[x, y, z, w]`. -/
structure Quat where
  x : ℚ
  y : ℚ
  z : ℚ
  w : ℚ
deriving DecidableEq, Repr

namespace Quat

/-- gl-matrix `quat.fromEuler(out, x, y, z)` with angles in degrees.  The
    code first multiplies each angle by `0.5 * π / 180` and takes sines and
    cosines; since `π` and trigonometric values are irrational, the
    half-angle sine and cosine are abstracted as function parameters
    `hs θ = sin (θ * π / 360)` and `hc θ = cos (θ * π / 360)`.  The claims
    about the camera use only the wiring of this function, never concrete
    trigonometric values. -/
def fromEuler (hs hc : ℚ → ℚ) (a b c : ℚ) : Quat :=
  let sx := hs a
  let cx := hc a
  let sy := hs b
  let cy := hc b
  let sz := hs c
  let cz := hc c
  ⟨sx * cy * cz - cx * sy * sz,
   cx * sy * cz + sx * cy * sz,
   cx * cy * sz - sx * sy * cz,
   cx * cy * cz + sx * sy * sz⟩

end Quat

/-- gl-matrix `vec3.transformQuat(out, a, q)`:
    `uv = cross(q.xyz, a); uuv = cross(q.xyz, uv); out = a + uv * 2w + uuv * 2`. -/
def transformQuat (a : Vec3) (q : Quat) : Vec3 :=
  let qv : Vec3 := ⟨q.x, q.y, q.z⟩
  let uv := Vec3.cross qv a
  let uuv := Vec3.cross qv uv
  Vec3.add a (Vec3.add (Vec3.scale uv (2 * q.w)) (Vec3.scale uuv 2))

/-- tfw `Plane`: unit normal plus constant, as built by `Plane.fromValues`. -/
structure PlaneQ where
  normal : Vec3
  constant : ℚ
deriving DecidableEq, Repr

/-- components.ts line 223: `const xzPlane = Plane.fromValues(0, 1, 0, 0)`. -/
def xzPlane : PlaneQ := ⟨⟨0, 1, 0⟩, 0⟩

/-- A JavaScript double as the plane-distance computation can produce it: a
    finite value (modelled exactly as a rational), a signed infinity, or
    NaN. -/
inductive JsNum
  | fin (q : ℚ)
  | posInf
  | negInf
  | nan
deriving DecidableEq, Repr

/-- JavaScript division `a / b` of finite operands: the finite quotient when
    `b ≠ 0`, and `sign(a) · ∞` or NaN when `b = 0`.  The zero divisor that
    reaches this division is always IEEE `+0`: it arises as a dot product
    `0 * d.x + 1 * d.y + 0 * d.z` whose `d.y` term is `worldPosition.y -
    origin.y` (possibly scaled by the positive normalization factor), and
    IEEE subtraction of equal finite values yields `+0`, `+0` times a
    positive factor stays `+0`, and a sum of `+0` and `±0` terms is `+0` —
    so no `-0` divisor needs modelling. -/
def jsDiv (a b : ℚ) : JsNum :=
  if b ≠ 0 then .fin (a / b)
  else if 0 < a then .posInf
  else if a < 0 then .negInf
  else .nan

/-- tfw `Plane.intersectRay(plane, origin, direction)`: the signed parameter
    `t` with `origin + t * direction` on the plane,
    `-(dot(normal, origin) + constant) / dot(normal, direction)`, as the
    float code computes it: finite for a non-parallel ray, and `±∞` or NaN
    (division by zero) for a parallel one. -/
def planeIntersectRay (p : PlaneQ) (origin direction : Vec3) : JsNum :=
  jsDiv (-(Vec3.dot p.normal origin + p.constant)) (Vec3.dot p.normal direction)

/-- tfw `Ray.getPoint(out, ray, distance) = origin + direction * distance`
    (finite distance). -/
def rayGetPoint (origin direction : Vec3) (distance : ℚ) : Vec3 :=
  Vec3.scaleAndAdd origin direction distance

/-- What `CameraController.getXZPlaneIntersection` returns `true` with: an
    ordinary finite plane point, or — when the distance is `+∞` — a written
    point none of whose components is finite (`Ray.getPoint` multiplies the
    infinite distance into the direction: the y component is `0 · ∞ = NaN`
    and each other component is `±∞`, or NaN where the direction component
    is zero). -/
inductive XZHit
  | point (p : Vec3)
  | nonFinite
deriving DecidableEq, Repr

/-- Core of `CameraController.getXZPlaneIntersection` (components.ts lines
    241–249) as a function of the ray origin and an (un-normalized) ray
    direction: intersect with `xzPlane` and apply the source's
    `if (!(distance > 0)) return false` test.  A finite positive distance
    passes and yields the finite ray point; `+∞` (camera strictly below the
    plane, parallel ray) also passes, returning true with a non-finite
    written point; NaN and `-∞` (and finite non-positive values) fail.
    The source normalizes the direction before intersecting; normalization
    multiplies the direction by a positive scalar when it is nonzero and
    leaves the zero vector unchanged, and `xzIntersect_scale_invariant`
    below proves that such a rescaling changes nothing, so the normalization
    step is dropped from this rational embedding. -/
def xzIntersect (origin direction : Vec3) : Option XZHit :=
  match planeIntersectRay xzPlane origin direction with
  | .fin distance =>
    if 0 < distance then some (.point (rayGetPoint origin direction distance)) else none
  | .posInf => some .nonFinite
  | .negInf => none
  | .nan => none

/-- `CameraController.getXZPlaneIntersection(hover, result)`: the ray runs
    from the camera's position (`this.transform.position`) toward
    `hover.worldPosition`.  `some h` models `return true` with `result`
    described by `h`; `none` models `return false`. -/
def CameraController.getXZPlaneIntersection (camPos worldPos : Vec3) : Option XZHit :=
  xzIntersect camPos (Vec3.sub worldPos camPos)

/-- Specialization of the ray-plane distance to the XZ plane. -/
theorem planeIntersectRay_xz (origin direction : Vec3) :
    planeIntersectRay xzPlane origin direction = jsDiv (-origin.y) direction.y := by
  simp [planeIntersectRay, xzPlane, Vec3.dot]

/-- The intersection on a non-parallel ray: the finite-distance test. -/
theorem xzIntersect_eq_of_ne (o d : Vec3) (hy : d.y ≠ 0) :
    xzIntersect o d =
      (if 0 < -o.y / d.y then some (XZHit.point (rayGetPoint o d (-o.y / d.y)))
       else none) := by
  unfold xzIntersect
  rw [planeIntersectRay_xz]
  unfold jsDiv
  rw [if_pos hy]

/-- The intersection on a parallel ray: division by zero gives `+∞` — and a
    true return with a non-finite point — exactly when the camera is
    strictly below the plane, and `-∞` or NaN — a false return — otherwise. -/
theorem xzIntersect_eq_of_parallel (o d : Vec3) (hy : d.y = 0) :
    xzIntersect o d = (if o.y < 0 then some XZHit.nonFinite else none) := by
  unfold xzIntersect
  rw [planeIntersectRay_xz, hy]
  unfold jsDiv
  rw [if_neg (by simp)]
  by_cases h1 : 0 < -o.y
  · rw [if_pos h1, if_pos (by linarith)]
  · rw [if_neg h1]
    by_cases h2 : -o.y < 0
    · rw [if_pos h2, if_neg (by linarith)]
    · rw [if_neg h2, if_neg (by linarith)]

/-- Rescaling the ray direction by a positive factor changes nothing — the
    branch taken, the success test and the returned point all agree: this is
    what lets the embedding drop the source's normalization of the
    direction. -/
theorem xzIntersect_scale_invariant (origin direction : Vec3) (k : ℚ) (hk : 0 < k) :
    xzIntersect origin (Vec3.scale direction k) = xzIntersect origin direction := by
  have hsy : (Vec3.scale direction k).y = k * direction.y := rfl
  rcases eq_or_ne direction.y 0 with hy | hy
  · rw [xzIntersect_eq_of_parallel origin _ (by rw [hsy, hy, mul_zero]),
      xzIntersect_eq_of_parallel origin direction hy]
  · have hky : (Vec3.scale direction k).y ≠ 0 := by
      rw [hsy]
      exact mul_ne_zero (ne_of_gt hk) hy
    rw [xzIntersect_eq_of_ne origin _ hky, xzIntersect_eq_of_ne origin direction hy, hsy]
    have hdiv : -origin.y / (k * direction.y) = -origin.y / direction.y / k := by
      rw [div_div, mul_comm]
    rw [hdiv]
    by_cases hpos : 0 < -origin.y / direction.y
    · rw [if_pos (by rw [lt_div_iff₀ hk, zero_mul]; exact hpos), if_pos hpos]
      congr 2
      rw [Vec3.ext_iff]
      unfold rayGetPoint Vec3.scaleAndAdd Vec3.scale
      have hk0 : k ≠ 0 := ne_of_gt hk
      refine ⟨?_, ?_, ?_⟩ <;> · simp only; field_simp; ring
    · rw [if_neg (by rw [lt_div_iff₀ hk, zero_mul]; exact hpos), if_neg hpos]

/-- A pointer hover event as delivered by the host engine; only the fields
    the embedded handlers read (`worldPosition`, `viewMovement`) are kept. -/
structure HoverQ where
  worldPosition : Vec3
  viewMovement : Vec3
deriving DecidableEq, Repr

/-- Identity of a host game object.  The source reads both `gameObject.id`
    (used as the key of every selection test, of the edit config and of the
    `gameObjects.require` lookup) and `gameObject.name` (read by the marquee
    pointer-up); they are distinct fields of the host interface. -/
structure ObjRef where
  id : String
  name : String
deriving DecidableEq, Repr

/-- tfw `Bounds`: an axis-aligned box given by its min and max corners. -/
structure BoundsQ where
  bmin : Vec3
  bmax : Vec3
deriving DecidableEq, Repr

/-- Host-engine context consulted by the handlers: object positions
    (`gameEngine.gameObjects.require(id).transform.position`), the position
    of the active camera (whose transform `CameraController` owns), whether
    an active camera exists (`renderEngine.activeCameras[0]`), and the
    render engine's `overlapBounds` query, which returns the interactive
    objects (the noninteractive marquee region excluded by the layer mask)
    whose bounds overlap the given box.  `overlapDegenerate` is the engine's
    answer when the queried box itself is non-finite (the marquee drag can
    compute one from a degenerate intersection point: its y range is then
    NaN); the embedding leaves that answer abstract rather than guess the
    engine's NaN comparisons. -/
structure Env where
  pos : String → Vec3
  camPos : Vec3
  hasCamera : Bool
  overlapBounds : BoundsQ → Finset ObjRef
  overlapDegenerate : Finset ObjRef

/-- Componentwise sum of positions over a finite set of ids: the result of
    the source's `for (const id of selection) vec3.add(center, center, ...)`
    accumulation loop (vector addition is commutative and associative, so
    the iteration order of the set is immaterial). -/
def sumPos (s : Finset String) (f : String → Vec3) : Vec3 :=
  ⟨Finset.sum s (fun i => (f i).x),
   Finset.sum s (fun i => (f i).y),
   Finset.sum s (fun i => (f i).z)⟩

/-- Arithmetic mean of the positions of a set of ids: the sum loop followed
    by `vec3.scale(center, center, 1 / selection.size)`. -/
def meanPos (s : Finset String) (f : String → Vec3) : Vec3 :=
  Vec3.scale (sumPos s f) (1 / s.card)

/-- Modelled from the spec: `SpaceEditConfig` and `applyEdit` come from
    ./ui/model, which is code of this repository not present under src/.
    Per the spec's description of drag-to-translate editing, an edit assigns
    new transform positions to a set of objects; it is embedded as the
    finite set of edited ids together with the position recorded for each
    (only `transform.position` entries are ever produced by components.ts). -/
structure SpaceEditConfig where
  ids : Finset String
  posOf : String → Vec3

/-- A vector as the drag logic stores it: an ordinary finite vector, or one
    none of whose components is finite.  The degenerate intersection point
    has no finite component, and the vector arithmetic applied to it
    (subtracting it from a finite center, adding it to a finite vector,
    `Math.round`, offsetting) again yields vectors with no finite component,
    so the all-or-nothing distinction is exact for every vector these
    handlers store. -/
inductive JsVec3
  | finite (v : Vec3)
  | nonFinite
deriving DecidableEq, Repr

/-- Outcome of a translate drag: an ordinary edit with finite positions, or
    an edit that assigns a position with no finite component to each id of
    the recorded set — a non-finite stored anchor or a degenerate
    intersection point propagates through `newCenter` into every written
    position. -/
inductive DragEdit
  | finite (edit : SpaceEditConfig)
  | nonFinite (ids : Finset String)

namespace Selector

/-- `Selector._getXZPlaneIntersection` (lines 200–205): false when there is
    no active camera; otherwise the active camera controller's
    `CameraController.getXZPlaneIntersection` on the hover. -/
def _getXZPlaneIntersection (env : Env) (hover : HoverQ) : Option XZHit :=
  if env.hasCamera then CameraController.getXZPlaneIntersection env.camPos hover.worldPosition else none

/-- `Selector._getCenter` (lines 207–214): the selector's own transform
    position when its id is not selected; otherwise the arithmetic mean of
    the positions of all selected objects.  The selector's own
    `this.transform.position` is the engine position of its own id. -/
def _getCenter (env : Env) (selfId : String) (selection : Finset String) : Vec3 :=
  if selfId ∉ selection then env.pos selfId
  else meanPos selection env.pos

/-- Selection update of `Selector.onPointerDown` (lines 60–67): with the
    control key held the selector's id is deleted if present and added if
    absent; without it, a click on an unselected object clears the selection
    and adds that id, and a click on a selected object leaves it alone.
    `selection` lives in ./ui/model (not under src/) and is modelled as a
    finite set of ids with the usual `has`/`add`/`delete`/`clear` semantics
    of a mutable set. -/
def pointerDownSelection (ctrl : Bool) (selfId : String)
    (selection : Finset String) : Finset String :=
  if ctrl then
    if selfId ∈ selection then selection.erase selfId else insert selfId selection
  else if selfId ∉ selection then insert selfId (∅ : Finset String)
  else selection

/-- `Selector.onPointerDown` (lines 59–74): updates the selection, then
    computes the `_intersectionToCenter` drag anchor from the (updated)
    selection — `center - intersection` on success, cleared on failure.
    When the intersection returns true with the degenerate non-finite point,
    the stored anchor `center - intersection` has no finite component
    either.  Returns the new selection and the new anchor. -/
def onPointerDown (env : Env) (ctrl : Bool) (selfId : String) (hover : HoverQ)
    (selection : Finset String) : Finset String × Option JsVec3 :=
  let selection2 := pointerDownSelection ctrl selfId selection
  match _getXZPlaneIntersection env hover with
  | some (XZHit.point intersection) =>
    (selection2,
      some (JsVec3.finite (Vec3.sub (_getCenter env selfId selection2) intersection)))
  | some XZHit.nonFinite => (selection2, some JsVec3.nonFinite)
  | none => (selection2, none)

/-- Grid-snapping step of `Selector.onPointerDrag` (lines 81–86): the
    proposed center is `intersection + intersectionToCenter`; without shift
    its delta from the old center is rounded componentwise and re-applied to
    the old center, with shift it is used directly. -/
def dragNewCenter (shift : Bool) (oldCenter proposed : Vec3) : Vec3 :=
  if shift then proposed
  else Vec3.add oldCenter (Vec3.round (Vec3.sub proposed oldCenter))

/-- `Selector.onPointerDrag` (lines 76–102): `none` models an early return
    that applies no edit (missing anchor, or intersection returning false);
    `some` carries the edit handed to `applyEdit` — one entry per selected
    id when the dragged selector is selected (each position moved rigidly
    with the center), else a single entry for the dragged object at the new
    center.  When the stored anchor or the current intersection point has no
    finite component, `newCenter = intersection + anchor` (and its rounding)
    has none either, so the applied edit assigns a non-finite position to
    each of the same ids. -/
def onPointerDrag (env : Env) (shift : Bool) (selfId : String) (hover : HoverQ)
    (selection : Finset String) (intersectionToCenter : Option JsVec3) :
    Option DragEdit :=
  match intersectionToCenter with
  | none => none
  | some anchor =>
    match _getXZPlaneIntersection env hover with
    | none => none
    | some hit =>
      match anchor, hit with
      | JsVec3.finite anchorv, XZHit.point intersection =>
        let oldCenter := _getCenter env selfId selection
        let newCenter := dragNewCenter shift oldCenter (Vec3.add intersection anchorv)
        if selfId ∈ selection then
          some (DragEdit.finite
            ⟨selection, fun id => Vec3.add (Vec3.sub (env.pos id) oldCenter) newCenter⟩)
        else
          some (DragEdit.finite ⟨insert selfId (∅ : Finset String), fun _ => newCenter⟩)
      | _, _ =>
        some (DragEdit.nonFinite
          (if selfId ∈ selection then selection else insert selfId (∅ : Finset String)))

end Selector

/-- Moving every point of a set rigidly by `d - c` moves its mean by the
    same translation. -/
theorem meanPos_rigid (s : Finset String) (f : String → Vec3) (c d : Vec3)
    (hs : s.Nonempty) :
    meanPos s (fun id => Vec3.add (Vec3.sub (f id) c) d) =
      Vec3.add (Vec3.sub (meanPos s f) c) d := by
  have hn : (0 : ℚ) < s.card := by exact_mod_cast Finset.card_pos.mpr hs
  have hcard : (s.card : ℚ) ≠ 0 := ne_of_gt hn
  rw [Vec3.ext_iff]
  refine ⟨?_, ?_, ?_⟩ <;>
  · simp only [meanPos, sumPos, Vec3.add, Vec3.sub, Vec3.scale, Finset.sum_add_distrib,
      Finset.sum_sub_distrib, Finset.sum_const, nsmul_eq_mul]
    field_simp
    ring

theorem vec3_add_sub_self (m d : Vec3) : Vec3.add (Vec3.sub m m) d = d := by
  rw [Vec3.ext_iff]
  refine ⟨?_, ?_, ?_⟩ <;> · simp [Vec3.add, Vec3.sub]

/-- Projection of `Selector.onPointerDown` to the selection component. -/
theorem onPointerDown_fst (env : Env) (ctrl : Bool) (selfId : String) (hover : HoverQ)
    (selection : Finset String) :
    (Selector.onPointerDown env ctrl selfId hover selection).1 =
      Selector.pointerDownSelection ctrl selfId selection := by
  unfold Selector.onPointerDown
  cases h : Selector._getXZPlaneIntersection env hover with
  | none => rfl
  | some hit => cases hit <;> rfl

/-- Shape of a drag by a selected selector: one rigid entry per selected id. -/
theorem onPointerDrag_mem (env : Env) (shift : Bool) (selfId : String) (hover : HoverQ)
    (selection : Finset String) (anchor intersection : Vec3)
    (hint : Selector._getXZPlaneIntersection env hover = some (XZHit.point intersection))
    (hm : selfId ∈ selection) :
    Selector.onPointerDrag env shift selfId hover selection (some (JsVec3.finite anchor)) =
      some (DragEdit.finite ⟨selection, fun id =>
        Vec3.add (Vec3.sub (env.pos id) (Selector._getCenter env selfId selection))
          (Selector.dragNewCenter shift (Selector._getCenter env selfId selection)
            (Vec3.add intersection anchor))⟩) := by
  unfold Selector.onPointerDrag
  rw [hint]
  simp only [if_pos hm]

/-- Shape of a drag by an unselected selector: a single entry at the new
    center. -/
theorem onPointerDrag_not_mem (env : Env) (shift : Bool) (selfId : String) (hover : HoverQ)
    (selection : Finset String) (anchor intersection : Vec3)
    (hint : Selector._getXZPlaneIntersection env hover = some (XZHit.point intersection))
    (hm : selfId ∉ selection) :
    Selector.onPointerDrag env shift selfId hover selection (some (JsVec3.finite anchor)) =
      some (DragEdit.finite ⟨insert selfId (∅ : Finset String), fun _ =>
        Selector.dragNewCenter shift (Selector._getCenter env selfId selection)
          (Vec3.add intersection anchor)⟩) := by
  unfold Selector.onPointerDrag
  rw [hint]
  simp only [if_neg hm]

/-- A drag with no stored anchor applies no edit. -/
theorem onPointerDrag_no_anchor (env : Env) (shift : Bool) (selfId : String)
    (hover : HoverQ) (selection : Finset String) :
    Selector.onPointerDrag env shift selfId hover selection none = none := rfl

/-- A drag whose plane intersection returns false applies no edit. -/
theorem onPointerDrag_no_intersection (env : Env) (shift : Bool) (selfId : String)
    (hover : HoverQ) (selection : Finset String) (anchor : JsVec3)
    (hint : Selector._getXZPlaneIntersection env hover = none) :
    Selector.onPointerDrag env shift selfId hover selection (some anchor) = none := by
  unfold Selector.onPointerDrag
  rw [hint]

/-- A degenerate intersection point propagates: the drag applies an edit
    whose every position is non-finite, over the same ids an ordinary drag
    would edit; likewise for a non-finite stored anchor. -/
theorem onPointerDrag_degenerate (env : Env) (shift : Bool) (selfId : String)
    (hover : HoverQ) (selection : Finset String) (anchor : JsVec3)
    (hint : Selector._getXZPlaneIntersection env hover = some XZHit.nonFinite) :
    Selector.onPointerDrag env shift selfId hover selection (some anchor) =
      some (DragEdit.nonFinite
        (if selfId ∈ selection then selection else insert selfId (∅ : Finset String))) := by
  unfold Selector.onPointerDrag
  rw [hint]
  cases anchor <;> rfl

/-- C2: a pointer-down on a Selector with the control key held toggles the
    selector's own id in the selection — removed if it was present, added if
    it was absent — and the membership of every other id is unchanged. -/
theorem C2_control_click_toggles (env : Env) (selfId : String) (hover : HoverQ)
    (selection : Finset String) (x : String) :
    (x ∈ (Selector.onPointerDown env true selfId hover selection).1 ↔
      (if x = selfId then selfId ∉ selection else x ∈ selection)) := by
  rw [onPointerDown_fst]
  unfold Selector.pointerDownSelection
  by_cases hm : selfId ∈ selection <;> by_cases hx : x = selfId <;>
    simp [hm, hx, Finset.mem_erase, Finset.mem_insert]

/-- C3: a pointer-down without the control key selects exactly the clicked
    object when its id was not selected (the selection is cleared and the id
    added), and leaves the selection unchanged when it was already
    selected. -/
theorem C3_plain_click_selects (env : Env) (selfId : String) (hover : HoverQ)
    (selection : Finset String) :
    (Selector.onPointerDown env false selfId hover selection).1 =
      (if selfId ∈ selection then selection else {selfId}) := by
  rw [onPointerDown_fst]
  unfold Selector.pointerDownSelection
  by_cases hm : selfId ∈ selection <;> simp [hm]

/-- C4: whenever a translate drag applies an edit (anchor present and drag
    ray meeting the XZ plane), the movement is grid-snapped: the new group
    center — the mean of the edited positions when the dragged selector is
    selected, the single edited position otherwise — is `dragNewCenter`,
    which without shift equals the old center plus the componentwise
    round-to-nearest of the unsnapped center delta and with shift equals the
    unsnapped center itself. -/
theorem C4_grid_snapped_drag (env : Env) (shift : Bool) (selfId : String)
    (hover : HoverQ) (selection : Finset String) (anchor intersection : Vec3)
    (edit : SpaceEditConfig)
    (hint : Selector._getXZPlaneIntersection env hover = some (XZHit.point intersection))
    (hedit : Selector.onPointerDrag env shift selfId hover selection
      (some (JsVec3.finite anchor)) = some (DragEdit.finite edit)) :
    (selfId ∈ selection →
      meanPos selection edit.posOf =
        Selector.dragNewCenter shift (Selector._getCenter env selfId selection)
          (Vec3.add intersection anchor)) ∧
    (selfId ∉ selection →
      edit.posOf selfId =
        Selector.dragNewCenter shift (Selector._getCenter env selfId selection)
          (Vec3.add intersection anchor)) ∧
    (∀ oldCenter proposed : Vec3,
      Selector.dragNewCenter false oldCenter proposed =
        Vec3.add oldCenter (Vec3.round (Vec3.sub proposed oldCenter)) ∧
      Selector.dragNewCenter true oldCenter proposed = proposed) := by
  refine ⟨?_, ?_, fun a b => ⟨rfl, rfl⟩⟩
  · intro hm
    rw [onPointerDrag_mem env shift selfId hover selection anchor intersection hint hm]
      at hedit
    simp only [Option.some_inj, DragEdit.finite.injEq] at hedit
    obtain rfl := hedit
    rw [meanPos_rigid selection env.pos _ _ ⟨selfId, hm⟩]
    have hc : Selector._getCenter env selfId selection = meanPos selection env.pos := by
      unfold Selector._getCenter
      rw [if_neg (not_not_intro hm)]
    rw [hc, vec3_add_sub_self]
  · intro hm
    rw [onPointerDrag_not_mem env shift selfId hover selection anchor intersection hint hm]
      at hedit
    simp only [Option.some_inj, DragEdit.finite.injEq] at hedit
    obtain rfl := hedit
    rfl

/-- Evaluation rule for the camera intersection at a concrete transversal
    input: a nonzero direction y-component, a positive crossing distance and
    the computed ray point give the finite-point return. -/
theorem getXZ_eval (camPos worldPos p : Vec3)
    (hy : (Vec3.sub worldPos camPos).y ≠ 0)
    (hpos : 0 < -camPos.y / (Vec3.sub worldPos camPos).y)
    (hp : rayGetPoint camPos (Vec3.sub worldPos camPos)
      (-camPos.y / (Vec3.sub worldPos camPos).y) = p) :
    CameraController.getXZPlaneIntersection camPos worldPos = some (XZHit.point p) := by
  unfold CameraController.getXZPlaneIntersection
  rw [xzIntersect_eq_of_ne _ _ hy, if_pos hpos, hp]

/-- Concrete drag setup shared by the C4 and C5 witnesses: objects "a" at
    the origin and "b" at (2,0,4), both selected, camera at (0,5,0), hover
    whose drag ray meets the XZ plane at (5,0,0), zero anchor, no shift. -/
def envW : Env :=
  ⟨fun id => if id = "a" then ⟨0, 0, 0⟩ else if id = "b" then ⟨2, 0, 4⟩ else ⟨0, 0, 0⟩,
   ⟨0, 5, 0⟩, true, fun _ => ∅, ∅⟩

/-- Hover used by the C4 and C5 witnesses. -/
def hoverW : HoverQ := ⟨⟨1, 4, 0⟩, ⟨0, 0, 0⟩⟩

/-- Selection used by the C4 and C5 witnesses. -/
def selW : Finset String := insert "a" {"b"}

/-- In the concrete setup, the drag ray does meet the XZ plane, at (5,0,0). -/
theorem hintW :
    Selector._getXZPlaneIntersection envW hoverW = some (XZHit.point ⟨5, 0, 0⟩) := by
  have h : CameraController.getXZPlaneIntersection envW.camPos hoverW.worldPosition =
      some (XZHit.point ⟨5, 0, 0⟩) :=
    getXZ_eval envW.camPos hoverW.worldPosition ⟨5, 0, 0⟩
      (by norm_num [envW, hoverW, Vec3.sub])
      (by norm_num [envW, hoverW, Vec3.sub])
      (by norm_num [envW, hoverW, rayGetPoint, Vec3.scaleAndAdd, Vec3.sub])
  unfold Selector._getXZPlaneIntersection
  rw [h]
  rfl

/-- The dragged selector "a" is selected in the concrete setup. -/
theorem memW : "a" ∈ selW := by decide

/-- The edit the concrete drag produces. -/
def editW : SpaceEditConfig :=
  ⟨selW, fun id =>
    Vec3.add (Vec3.sub (envW.pos id) (Selector._getCenter envW "a" selW))
      (Selector.dragNewCenter false (Selector._getCenter envW "a" selW)
        (Vec3.add ⟨5, 0, 0⟩ ⟨0, 0, 0⟩))⟩

/-- The concrete drag indeed applies exactly that edit. -/
theorem editW_eq :
    Selector.onPointerDrag envW false "a" hoverW selW (some (JsVec3.finite ⟨0, 0, 0⟩)) =
      some (DragEdit.finite editW) :=
  onPointerDrag_mem envW false "a" hoverW selW ⟨0, 0, 0⟩ ⟨5, 0, 0⟩ hintW memW

/-- Witness for C4: the concrete unshifted drag applies, and the mean of the
    edited positions is the snapped center. -/
theorem C4_grid_snapped_drag_witness :
    meanPos selW editW.posOf =
      Selector.dragNewCenter false (Selector._getCenter envW "a" selW)
        (Vec3.add ⟨5, 0, 0⟩ ⟨0, 0, 0⟩) :=
  (C4_grid_snapped_drag envW false "a" hoverW selW ⟨0, 0, 0⟩ ⟨5, 0, 0⟩ editW
    hintW editW_eq).1 memW

/-- C5: the edit a translate drag produces is rigid: when the dragged
    selector's id is selected, the edit covers exactly the selected ids, the
    old center is the arithmetic mean of the selected positions, and each
    selected id is assigned the new center plus its offset from the old
    center; when it is not selected, the edit covers exactly the dragged
    object's id and sets its position to the new center. -/
theorem C5_rigid_group_move (env : Env) (shift : Bool) (selfId : String)
    (hover : HoverQ) (selection : Finset String) (anchor intersection : Vec3)
    (edit : SpaceEditConfig)
    (hint : Selector._getXZPlaneIntersection env hover = some (XZHit.point intersection))
    (hedit : Selector.onPointerDrag env shift selfId hover selection
      (some (JsVec3.finite anchor)) = some (DragEdit.finite edit)) :
    (selfId ∈ selection →
      edit.ids = selection ∧
      Selector._getCenter env selfId selection = meanPos selection env.pos ∧
      (∀ id, id ∈ selection →
        edit.posOf id =
          Vec3.add
            (Selector.dragNewCenter shift (Selector._getCenter env selfId selection)
              (Vec3.add intersection anchor))
            (Vec3.sub (env.pos id) (Selector._getCenter env selfId selection)))) ∧
    (selfId ∉ selection →
      edit.ids = {selfId} ∧
      edit.posOf selfId =
        Selector.dragNewCenter shift (Selector._getCenter env selfId selection)
          (Vec3.add intersection anchor)) := by
  constructor
  · intro hm
    rw [onPointerDrag_mem env shift selfId hover selection anchor intersection hint hm]
      at hedit
    simp only [Option.some_inj, DragEdit.finite.injEq] at hedit
    obtain rfl := hedit
    refine ⟨rfl, ?_, fun id _ => ?_⟩
    · unfold Selector._getCenter
      rw [if_neg (not_not_intro hm)]
    · show Vec3.add (Vec3.sub (env.pos id) _) _ = _
      rw [Vec3.ext_iff]
      refine ⟨?_, ?_, ?_⟩ <;> · simp only [Vec3.add, Vec3.sub]; ring
  · intro hm
    rw [onPointerDrag_not_mem env shift selfId hover selection anchor intersection hint hm]
      at hedit
    simp only [Option.some_inj, DragEdit.finite.injEq] at hedit
    obtain rfl := hedit
    exact ⟨by simp, rfl⟩

/-- Witness for C5: in the concrete drag, the selected object "b" is moved
    rigidly with the group. -/
theorem C5_rigid_group_move_witness :
    editW.posOf "b" =
      Vec3.add
        (Selector.dragNewCenter false (Selector._getCenter envW "a" selW)
          (Vec3.add ⟨5, 0, 0⟩ ⟨0, 0, 0⟩))
        (Vec3.sub (envW.pos "b") (Selector._getCenter envW "a" selW)) :=
  (((C5_rigid_group_move envW false "a" hoverW selW ⟨0, 0, 0⟩ ⟨5, 0, 0⟩ editW
    hintW editW_eq).1 memW).2.2) "b" (by decide)

/-- components.ts line 230: a very small but nonzero scale. -/
def SMALL_SCALE : ℚ := 1 / 1000000

/-- Transform of the marquee region game object ("select"): its world
    position and local scale.  A `JsVec3.nonFinite` entry marks a transform
    written from the degenerate intersection point: component arithmetic on
    a point with no finite component leaves no finite vector to record (in
    the local scale only the constant y entry 1 stays finite). -/
structure RegionT where
  position : JsVec3
  localScale : JsVec3
deriving DecidableEq, Repr

/-- Marquee bounds computed by the drag handler (lines 318–321):
    componentwise min/max of the drag start and the current plane point,
    with the y range widened by 0.5 on each side. -/
def marqueeBounds (start p : Vec3) : BoundsQ :=
  let bmin := Vec3.vmin start p
  let bmax := Vec3.vmax start p
  ⟨⟨bmin.x, bmin.y - 1/2, bmin.z⟩, ⟨bmax.x, bmax.y + 1/2, bmax.z⟩⟩

/-- Camera-side marquee state: whether the `_selectRegion` object exists and
    its transform, `_selectStartPosition`, the module-level `selectors` and
    `lastSelectors` sets (lines 226–227; each drag step fills `selectors`,
    clears `lastSelectors` and swaps the two, so `selectors` is empty
    between events), every selector's `groupHovered` flag, and the shared
    selection set from ./ui/model. -/
structure CamMarquee where
  selectRegion : Bool
  region : RegionT
  selectStart : JsVec3
  selectors : Finset ObjRef
  lastSelectors : Finset ObjRef
  groupHovered : ObjRef → Bool
  selection : Finset String

namespace CameraController

/-- `CameraController.onPointerDown` (lines 279–304): on a shift plus
    primary-button press the selection is cleared first; then, only if the
    intersection returns true, the marquee region object is created at the
    written start position (which is the degenerate non-finite point if the
    intersection returned true with `+∞` distance) with an almost-zero
    footprint. -/
def onPointerDown (env : Env) (button0 shift : Bool) (hover : HoverQ)
    (st : CamMarquee) : CamMarquee :=
  if button0 && shift then
    let st1 : CamMarquee := { st with selection := ∅ }
    match CameraController.getXZPlaneIntersection env.camPos hover.worldPosition with
    | none => st1
    | some (XZHit.point p) =>
      { st1 with
        selectRegion := true
        selectStart := JsVec3.finite p
        region := ⟨JsVec3.finite p, JsVec3.finite ⟨SMALL_SCALE, 1, SMALL_SCALE⟩⟩ }
    | some XZHit.nonFinite =>
      { st1 with
        selectRegion := true
        selectStart := JsVec3.nonFinite
        region := ⟨JsVec3.nonFinite, JsVec3.finite ⟨SMALL_SCALE, 1, SMALL_SCALE⟩⟩ }
  else st

/-- Marquee branch of `CameraController.onPointerDrag` (lines 306–335),
    taken when `_selectRegion` exists: a failed plane intersection returns
    with no change; otherwise the region transform is updated to span start
    and current point (the source writes `position` and then scales
    `localPosition`, which coincide for the root-level region object), the
    overlap query marks every overlapped selector group-hovered and collects
    it, every previously collected selector no longer overlapped is
    un-group-hovered, and the two collection sets swap.  The orbit/pan/zoom
    else-branch operates on the camera properties and is modelled separately
    by `camStep`. -/
def onPointerDragMarquee (env : Env) (hover : HoverQ) (st : CamMarquee) : CamMarquee :=
  if st.selectRegion then
    match CameraController.getXZPlaneIntersection env.camPos hover.worldPosition with
    | none => st
    | some hit0 =>
      match st.selectStart, hit0 with
      | JsVec3.finite start, XZHit.point p =>
        let region : RegionT :=
          ⟨JsVec3.finite (Vec3.scale (Vec3.add start p) (1 / 2)),
           JsVec3.finite ⟨max SMALL_SCALE (abs (p.x - start.x)), 1,
             max SMALL_SCALE (abs (p.z - start.z))⟩⟩
        let hit := env.overlapBounds (marqueeBounds start p)
        let selectors1 := st.selectors ∪ hit
        { st with
          region := region
          selectors := ∅
          lastSelectors := selectors1
          groupHovered := fun s =>
            if s ∈ hit then true
            else if s ∈ st.lastSelectors ∧ s ∉ selectors1 then false
            else st.groupHovered s }
      | _, _ =>
        -- a degenerate current point or a degenerately written start leaves
        -- no finite region transform, and min/max against its components
        -- give a box with a NaN y range: the engine answers that query with
        -- `overlapDegenerate`, and the set bookkeeping proceeds as usual
        let hit := env.overlapDegenerate
        let selectors1 := st.selectors ∪ hit
        { st with
          region := ⟨JsVec3.nonFinite, JsVec3.nonFinite⟩
          selectors := ∅
          lastSelectors := selectors1
          groupHovered := fun s =>
            if s ∈ hit then true
            else if s ∈ st.lastSelectors ∧ s ∉ selectors1 then false
            else st.groupHovered s }
  else st

/-- `CameraController.onPointerUp` (lines 354–367): if a marquee is active
    it is disposed, and when the last drag step collected any selectors each
    one is un-group-hovered and its game object's `name` is added to the
    selection (note: `name`, not `id`), after which the collection is
    cleared. -/
def onPointerUp (st : CamMarquee) : CamMarquee :=
  if st.selectRegion then
    let st1 : CamMarquee := { st with selectRegion := false }
    if 0 < st.lastSelectors.card then
      { st1 with
        groupHovered := fun s => if s ∈ st.lastSelectors then false else st.groupHovered s
        selection := st.selection ∪ st.lastSelectors.image (fun s => s.name)
        lastSelectors := ∅ }
    else st1
  else st

end CameraController

/-- A finite-point return happens exactly on a transversal ray with a
    positive plane distance `-origin.y / direction.y`. -/
theorem xzIntersect_point_iff (o d : Vec3) :
    (∃ p, xzIntersect o d = some (XZHit.point p)) ↔ (d.y ≠ 0 ∧ 0 < -o.y / d.y) := by
  rcases eq_or_ne d.y 0 with hy | hy
  · rw [xzIntersect_eq_of_parallel o d hy]
    constructor
    · rintro ⟨p, hp⟩
      by_cases ho : o.y < 0
      · rw [if_pos ho] at hp
        simp at hp
      · rw [if_neg ho] at hp
        cases hp
    · rintro ⟨hdy, _⟩
      exact absurd hy hdy
  · rw [xzIntersect_eq_of_ne o d hy]
    by_cases hpos : 0 < -o.y / d.y
    · rw [if_pos hpos]
      exact ⟨fun _ => ⟨hy, hpos⟩, fun _ => ⟨_, rfl⟩⟩
    · rw [if_neg hpos]
      constructor
      · rintro ⟨p, hp⟩
        cases hp
      · rintro ⟨_, h⟩
        exact absurd h hpos

/-- A returned finite point is the ray point at the positive finite
    distance, and comes from a transversal ray. -/
theorem xzIntersect_point (o d p : Vec3) (h : xzIntersect o d = some (XZHit.point p)) :
    d.y ≠ 0 ∧ 0 < -o.y / d.y ∧ p = rayGetPoint o d (-o.y / d.y) := by
  rcases eq_or_ne d.y 0 with hy | hy
  · rw [xzIntersect_eq_of_parallel o d hy] at h
    by_cases ho : o.y < 0
    · rw [if_pos ho] at h
      simp at h
    · rw [if_neg ho] at h
      cases h
  · rw [xzIntersect_eq_of_ne o d hy] at h
    by_cases hpos : 0 < -o.y / d.y
    · rw [if_pos hpos] at h
      have h1 := Option.some_inj.mp h
      injection h1 with h2
      exact ⟨hy, hpos, h2.symm⟩
    · rw [if_neg hpos] at h
      cases h

/-- Positivity of `-oy / dy` says exactly that the ray height `oy + dy * t`
    vanishes at some strictly positive `t` with `dy` nonzero. -/
theorem pos_ratio_iff (oy dy : ℚ) :
    0 < -oy / dy ↔ (dy ≠ 0 ∧ ∃ t : ℚ, 0 < t ∧ oy + dy * t = 0) := by
  constructor
  · intro h
    have hdy : dy ≠ 0 := by
      rintro rfl
      simp at h
    refine ⟨hdy, -oy / dy, h, ?_⟩
    field_simp
    ring
  · rintro ⟨hdy, t, ht, heq⟩
    have hteq : t = -oy / dy := by
      rw [eq_div_iff hdy]
      linear_combination heq
    rwa [← hteq]

/-- C6 (amended): the XZ intersection returns true with a finite
    intersection point exactly when the ray from the camera toward the
    hover's world position crosses the plane y = 0 transversally (direction
    with nonzero y-component) at a strictly positive parameter, and that
    point lies on the plane and on the ray.  A parallel ray divides by
    zero: with the camera on the plane (NaN distance, the source's comment)
    or strictly above it (`-∞`) the routine returns false, but with the
    camera strictly below the plane the `+∞` distance passes the
    `distance > 0` test and the routine returns true writing a point with
    no finite component.  A missing active camera returns false, and a
    false return leaves the drag handlers without effect and makes the
    pointer-down handler record no drag anchor. -/
theorem C6_xz_intersection_characterization :
    (∀ o w : Vec3,
      ((∃ p, CameraController.getXZPlaneIntersection o w = some (XZHit.point p)) ↔
        ((Vec3.sub w o).y ≠ 0 ∧
          ∃ t : ℚ, 0 < t ∧ (rayGetPoint o (Vec3.sub w o) t).y = 0))) ∧
    (∀ o w p : Vec3,
      CameraController.getXZPlaneIntersection o w = some (XZHit.point p) →
      p.y = 0 ∧ ∃ t : ℚ, 0 < t ∧ p = rayGetPoint o (Vec3.sub w o) t) ∧
    (∀ o w : Vec3, (Vec3.sub w o).y = 0 →
      CameraController.getXZPlaneIntersection o w =
        (if o.y < 0 then some XZHit.nonFinite else none)) ∧
    (∀ (env : Env) (hover : HoverQ), env.hasCamera = false →
      Selector._getXZPlaneIntersection env hover = none) ∧
    (∀ (env : Env) (shift : Bool) (selfId : String) (hover : HoverQ)
      (selection : Finset String) (itc : Option JsVec3),
      Selector._getXZPlaneIntersection env hover = none →
      Selector.onPointerDrag env shift selfId hover selection itc = none) ∧
    (∀ (env : Env) (hover : HoverQ) (st : CamMarquee),
      CameraController.getXZPlaneIntersection env.camPos hover.worldPosition = none →
      CameraController.onPointerDragMarquee env hover st = st) ∧
    (∀ (env : Env) (ctrl : Bool) (selfId : String) (hover : HoverQ)
      (selection : Finset String),
      Selector._getXZPlaneIntersection env hover = none →
      (Selector.onPointerDown env ctrl selfId hover selection).2 = none) := by
  refine ⟨?_, ?_, ?_, ?_, ?_, ?_, ?_⟩
  · intro o w
    rw [CameraController.getXZPlaneIntersection, xzIntersect_point_iff]
    constructor
    · rintro ⟨hdy, hpos⟩
      obtain ⟨-, t, ht, heq⟩ := (pos_ratio_iff o.y (Vec3.sub w o).y).mp hpos
      exact ⟨hdy, t, ht, by simpa [rayGetPoint, Vec3.scaleAndAdd, mul_comm] using heq⟩
    · rintro ⟨hdy, t, ht, heq⟩
      refine ⟨hdy, (pos_ratio_iff o.y (Vec3.sub w o).y).mpr ⟨hdy, t, ht, ?_⟩⟩
      simpa [rayGetPoint, Vec3.scaleAndAdd, mul_comm] using heq
  · intro o w p h
    obtain ⟨hdy, hpos, hp⟩ := xzIntersect_point o (Vec3.sub w o) p h
    constructor
    · rw [hp]
      show o.y + (Vec3.sub w o).y * (-o.y / (Vec3.sub w o).y) = 0
      field_simp
      ring
    · exact ⟨-o.y / (Vec3.sub w o).y, hpos, hp⟩
  · intro o w hdy
    unfold CameraController.getXZPlaneIntersection
    rw [xzIntersect_eq_of_parallel o (Vec3.sub w o) hdy]
  · intro env hover hcam
    unfold Selector._getXZPlaneIntersection
    rw [hcam]
    simp
  · intro env shift selfId hover selection itc hnone
    cases itc with
    | none => rfl
    | some anchor =>
      exact onPointerDrag_no_intersection env shift selfId hover selection anchor hnone
  · intro env hover st hnone
    unfold CameraController.onPointerDragMarquee
    rw [hnone]
    by_cases hr : st.selectRegion <;> simp [hr]
  · intro env ctrl selfId hover selection hnone
    unfold Selector.onPointerDown
    rw [hnone]

/-- Counterexample to C6 as stated, at two explicit inputs.  First: camera
    at the origin (on the plane), hover at (1,0,0): the ray lies in the
    plane and so meets it at every strictly positive distance, yet the
    routine returns false (NaN distance).  Second: camera at (0,-5,0)
    (strictly below the plane), hover at (1,-5,0): the parallel ray never
    meets the plane, yet the `+∞` distance makes the routine return true —
    so "in every other case it returns false" also fails. -/
theorem C6_counterexample :
    (¬ (((CameraController.getXZPlaneIntersection ⟨0, 0, 0⟩ ⟨1, 0, 0⟩).isSome = true) ↔
      (∃ t : ℚ, 0 < t ∧
        (rayGetPoint ⟨0, 0, 0⟩ (Vec3.sub ⟨1, 0, 0⟩ ⟨0, 0, 0⟩) t).y = 0))) ∧
    ((CameraController.getXZPlaneIntersection ⟨0, -5, 0⟩ ⟨1, -5, 0⟩).isSome = true ∧
      ¬ (∃ t : ℚ, 0 < t ∧
        (rayGetPoint ⟨0, -5, 0⟩ (Vec3.sub ⟨1, -5, 0⟩ ⟨0, -5, 0⟩) t).y = 0)) := by
  have h1 : CameraController.getXZPlaneIntersection (⟨0, 0, 0⟩ : Vec3) ⟨1, 0, 0⟩ = none := by
    unfold CameraController.getXZPlaneIntersection
    rw [xzIntersect_eq_of_parallel _ _ (by norm_num [Vec3.sub])]
    norm_num
  have h2 : CameraController.getXZPlaneIntersection (⟨0, -5, 0⟩ : Vec3) ⟨1, -5, 0⟩ =
      some XZHit.nonFinite := by
    unfold CameraController.getXZPlaneIntersection
    rw [xzIntersect_eq_of_parallel _ _ (by norm_num [Vec3.sub])]
    norm_num
  refine ⟨?_, ?_, ?_⟩
  · intro h
    have hmeets : ∃ t : ℚ, 0 < t ∧
        (rayGetPoint ⟨0, 0, 0⟩ (Vec3.sub ⟨1, 0, 0⟩ ⟨0, 0, 0⟩) t).y = 0 :=
      ⟨1, one_pos, by norm_num [rayGetPoint, Vec3.sub, Vec3.scaleAndAdd]⟩
    rw [h1] at h
    exact Bool.false_ne_true (h.mpr hmeets)
  · rw [h2]
    rfl
  · rintro ⟨t, -, ht⟩
    rw [show (rayGetPoint ⟨0, -5, 0⟩ (Vec3.sub ⟨1, -5, 0⟩ ⟨0, -5, 0⟩) t).y = -5 from by
      norm_num [rayGetPoint, Vec3.sub, Vec3.scaleAndAdd]] at ht
    norm_num at ht

/-- Witness for C6: at the concrete camera and hover of the drag setup, the
    intersection succeeds with a finite point that lies on the plane and on
    the ray at a positive parameter. -/
theorem C6_xz_intersection_witness :
    (⟨5, 0, 0⟩ : Vec3).y = 0 ∧
      ∃ t : ℚ, 0 < t ∧
        (⟨5, 0, 0⟩ : Vec3) = rayGetPoint ⟨0, 5, 0⟩ (Vec3.sub ⟨1, 4, 0⟩ ⟨0, 5, 0⟩) t :=
  C6_xz_intersection_characterization.2.1 ⟨0, 5, 0⟩ ⟨1, 4, 0⟩ ⟨5, 0, 0⟩
    (getXZ_eval ⟨0, 5, 0⟩ ⟨1, 4, 0⟩ ⟨5, 0, 0⟩ (by norm_num [Vec3.sub])
      (by norm_num [Vec3.sub]) (by norm_num [rayGetPoint, Vec3.scaleAndAdd, Vec3.sub]))

/-- Value of an active marquee drag step with a finite start and a plane
    intersection succeeding at a finite point. -/
theorem onPointerDragMarquee_active (env : Env) (hover : HoverQ) (st : CamMarquee)
    (start p : Vec3) (hr : st.selectRegion = true)
    (hstart : st.selectStart = JsVec3.finite start)
    (hint : CameraController.getXZPlaneIntersection env.camPos hover.worldPosition =
      some (XZHit.point p)) :
    CameraController.onPointerDragMarquee env hover st =
      { st with
        region := ⟨JsVec3.finite (Vec3.scale (Vec3.add start p) (1 / 2)),
          JsVec3.finite ⟨max SMALL_SCALE (abs (p.x - start.x)), 1,
            max SMALL_SCALE (abs (p.z - start.z))⟩⟩
        selectors := ∅
        lastSelectors := st.selectors ∪ env.overlapBounds (marqueeBounds start p)
        groupHovered := fun s =>
          if s ∈ env.overlapBounds (marqueeBounds start p) then true
          else if s ∈ st.lastSelectors ∧
              s ∉ st.selectors ∪ env.overlapBounds (marqueeBounds start p) then false
          else st.groupHovered s } := by
  unfold CameraController.onPointerDragMarquee
  rw [hr, hint, hstart]
  simp

/-- Value of a marquee pointer-up when the last drag collected selectors. -/
theorem onPointerUp_active (st : CamMarquee) (hr : st.selectRegion = true)
    (hne : 0 < st.lastSelectors.card) :
    CameraController.onPointerUp st =
      { st with
        selectRegion := false
        groupHovered := fun s => if s ∈ st.lastSelectors then false else st.groupHovered s
        selection := st.selection ∪ st.lastSelectors.image (fun s => s.name)
        lastSelectors := ∅ } := by
  unfold CameraController.onPointerUp
  rw [hr, if_pos rfl, if_pos hne]

/-- A game object whose id and name differ, as the host engine permits. -/
def objC1 : ObjRef := ⟨"cube.1", "cube"⟩

/-- Environment for the C1 run: camera at (0,5,0), and the render engine's
    overlap query reporting (only) the selector of `objC1`. -/
def envC1 : Env := ⟨fun _ => ⟨0, 0, 0⟩, ⟨0, 5, 0⟩, true, fun _ => insert objC1 ∅, ∅⟩

/-- Hover for the C1 run; its drag ray meets the XZ plane at (5,0,0). -/
def hoverC1 : HoverQ := ⟨⟨1, 4, 0⟩, ⟨0, 0, 0⟩⟩

/-- Marquee state with an active region started at the origin and an empty
    selection. -/
def stC1 : CamMarquee :=
  ⟨true, ⟨JsVec3.finite ⟨0, 0, 0⟩, JsVec3.finite ⟨SMALL_SCALE, 1, SMALL_SCALE⟩⟩,
   JsVec3.finite ⟨0, 0, 0⟩, ∅, ∅, fun _ => false, ∅⟩

/-- State after the final marquee drag step of the C1 run. -/
def stC1d : CamMarquee := CameraController.onPointerDragMarquee envC1 hoverC1 stC1

/-- State after the marquee pointer-up of the C1 run. -/
def stC1u : CamMarquee := CameraController.onPointerUp stC1d

/-- C1 (evaluated at the failing input): the selector of the game object
    with id "cube.1" and name "cube" overlaps the final marquee region and
    is group-hovered at release, yet after pointer-up the selection contains
    the *name* "cube" and not the id "cube.1" — so the overlapped object is
    not actually selected, since every other selection check in the file
    keys the selection by `gameObject.id`. -/
theorem C1_marquee_adds_name_not_id :
    objC1 ∈ stC1d.lastSelectors ∧ stC1d.groupHovered objC1 = true ∧
    "cube" ∈ stC1u.selection ∧ "cube.1" ∉ stC1u.selection := by
  have hint1 : CameraController.getXZPlaneIntersection envC1.camPos hoverC1.worldPosition =
      some (XZHit.point ⟨5, 0, 0⟩) :=
    getXZ_eval envC1.camPos hoverC1.worldPosition ⟨5, 0, 0⟩
      (by norm_num [envC1, hoverC1, Vec3.sub])
      (by norm_num [envC1, hoverC1, Vec3.sub])
      (by norm_num [envC1, hoverC1, rayGetPoint, Vec3.scaleAndAdd, Vec3.sub])
  have hd := onPointerDragMarquee_active envC1 hoverC1 stC1 ⟨0, 0, 0⟩ ⟨5, 0, 0⟩ rfl rfl hint1
  have h1 : stC1d.lastSelectors = insert objC1 ∅ := by
    unfold stC1d
    rw [hd]
    simp [stC1, envC1]
  have h2 : stC1d.groupHovered objC1 = true := by
    unfold stC1d
    rw [hd]
    simp [stC1, envC1]
  have h3 : stC1d.selectRegion = true := by
    unfold stC1d
    rw [hd]
    rfl
  have h4 : stC1d.selection = ∅ := by
    unfold stC1d
    rw [hd]
    rfl
  have hu := onPointerUp_active stC1d h3 (by rw [h1]; decide)
  have h5 : stC1u.selection =
      (∅ : Finset String) ∪ (insert objC1 ∅ : Finset ObjRef).image (fun s => s.name) := by
    unfold stC1u
    rw [hu]
    show stC1d.selection ∪ stC1d.lastSelectors.image (fun s => s.name) = _
    rw [h4, h1]
  refine ⟨by rw [h1]; decide, h2, ?_, ?_⟩
  · rw [h5]
    decide
  · rw [h5]
    decide

/-- Reactive camera properties of `CameraController` (lines 233–236). -/
structure CamProps where
  target : Vec3
  azimuth : ℚ
  elevation : ℚ
  distance : ℚ
deriving DecidableEq, Repr

/-- The `@property` defaults: target (0,0,0), azimuth 0, elevation -45,
    distance 10. -/
def initCamProps : CamProps := ⟨⟨0, 0, 0⟩, 0, -45, 10⟩

/-- The camera transform written by the reactive update. -/
structure TransformQ where
  rotation : Quat
  position : Vec3
deriving DecidableEq, Repr

/-- Reactive update installed by `CameraController.awake` (lines 259–277):
    the rotation is the Euler quaternion of (elevation, azimuth, 0) and the
    position is the target plus that rotation applied to (0, 0, distance).
    `hs`/`hc` are the abstract half-angle sine and cosine of
    `Quat.fromEuler`. -/
def cameraUpdate (hs hc : ℚ → ℚ) (p : CamProps) : TransformQ :=
  let rotation := Quat.fromEuler hs hc p.elevation p.azimuth 0
  let offset := transformQuat ⟨0, 0, p.distance⟩ rotation
  ⟨rotation, Vec3.add p.target offset⟩

/-- `CameraController.reset` (lines 251–257): zero the target and restore
    the default azimuth, elevation and distance. -/
def CameraController.reset (_p : CamProps) : CamProps := ⟨⟨0, 0, 0⟩, 0, -45, 10⟩

/-- tfw `clamp(value, min, max)`. -/
def clampQ (v lo hi : ℚ) : ℚ := min (max v lo) hi

/-- JavaScript `Math.sign`. -/
def jsSign (q : ℚ) : ℚ := if 0 < q then 1 else if q < 0 then -1 else 0

/-- `CameraController._addToDistance` (lines 373–375): the distance is
    clamped below at 0.5. -/
def CameraController._addToDistance (p : CamProps) (amount : ℚ) : CamProps :=
  { p with distance := max (1/2) (p.distance + amount) }

/-- One camera-property operation: the orbit drag (primary button), the
    distance drag (middle button), the pan drag (other buttons), the wheel,
    and reset. -/
inductive CamOp
  | orbitDrag (dx dy : ℚ)
  | distDrag (dy : ℚ)
  | panDrag (dx dy : ℚ)
  | wheel (dy : ℚ)
  | reset

/-- Step of the camera properties under one operation: the non-marquee
    branch of `CameraController.onPointerDrag` (lines 336–352), `onWheel`
    (lines 369–371) and `reset` (lines 251–257). -/
def camStep (hs hc : ℚ → ℚ) (p : CamProps) : CamOp → CamProps
  | .orbitDrag dx dy =>
    { p with
      azimuth := p.azimuth + dx * -180
      elevation := clampQ (p.elevation + dy * 180) (-90) 90 }
  | .distDrag dy => CameraController._addToDistance p (dy * -20)
  | .panDrag dx dy =>
    let v := transformQuat ⟨-dx, 0, dy⟩ (Quat.fromEuler hs hc 0 p.azimuth 0)
    { p with target := Vec3.scaleAndAdd p.target v p.distance }
  | .wheel dy => CameraController._addToDistance p (1/2 * jsSign dy)
  | .reset => CameraController.reset p

/-- The C9 invariant: elevation within [-90, 90], distance at least 0.5. -/
def CamInv (p : CamProps) : Prop :=
  -90 ≤ p.elevation ∧ p.elevation ≤ 90 ∧ 1/2 ≤ p.distance

/-- Every single camera operation preserves the invariant. -/
theorem camStep_inv (hs hc : ℚ → ℚ) (p : CamProps) (op : CamOp) (h : CamInv p) :
    CamInv (camStep hs hc p op) := by
  obtain ⟨h1, h2, h3⟩ := h
  cases op with
  | orbitDrag dx dy =>
    exact ⟨le_min (le_max_right _ _) (by norm_num), min_le_right _ _, h3⟩
  | distDrag dy => exact ⟨h1, h2, le_max_left _ _⟩
  | panDrag dx dy => exact ⟨h1, h2, h3⟩
  | wheel dy => exact ⟨h1, h2, le_max_left _ _⟩
  | reset =>
    refine ⟨?_, ?_, ?_⟩ <;> norm_num [camStep, CameraController.reset]

/-- Folding camera operations preserves the invariant. -/
theorem camStep_foldl_inv (hs hc : ℚ → ℚ) (ops : List CamOp) (p : CamProps)
    (h : CamInv p) : CamInv (List.foldl (camStep hs hc) p ops) := by
  induction ops generalizing p with
  | nil => exact h
  | cons op rest ih => exact ih _ (camStep_inv hs hc p op h)

/-- C8: for every property state the reactive update satisfies the orbit
    equations — rotation is the Euler quaternion of (elevation, azimuth, 0)
    and position is target plus that rotation applied to (0, 0, distance) —
    and reset restores target (0,0,0), azimuth 0, elevation -45,
    distance 10. -/
theorem C8_camera_orbit_equations (hs hc : ℚ → ℚ) (p : CamProps) :
    (cameraUpdate hs hc p).rotation = Quat.fromEuler hs hc p.elevation p.azimuth 0 ∧
    (cameraUpdate hs hc p).position =
      Vec3.add p.target
        (transformQuat ⟨0, 0, p.distance⟩ (Quat.fromEuler hs hc p.elevation p.azimuth 0)) ∧
    CameraController.reset p = initCamProps ∧
    initCamProps = ⟨⟨0, 0, 0⟩, 0, -45, 10⟩ :=
  ⟨rfl, rfl, rfl, rfl⟩

/-- C9: along every sequence of camera operations starting from the initial
    property values, the elevation stays within [-90, 90] and the distance
    stays at least 0.5. -/
theorem C9_camera_invariant (hs hc : ℚ → ℚ) (ops : List CamOp) :
    CamInv (List.foldl (camStep hs hc) initCamProps ops) :=
  camStep_foldl_inv hs hc ops initCamProps
    ⟨by norm_num [initCamProps], by norm_num [initCamProps], by norm_num [initCamProps]⟩

/-- Per-mesh outline flags: whether the dedicated `OUTLINE_LAYER` bit is
    enabled on the mesh (`node.layers`), and the opacity override that the
    installed `onBeforeRender` hook forces during the outline render
    (`none` models the hooks being `Noop` and no override in place). -/
structure MeshOutline where
  layerEnabled : Bool
  opacityOverride : Option ℚ
deriving DecidableEq, Repr

/-- A renderable object: the meshes its `traverse` visits. -/
structure Obj where
  meshes : List String
deriving DecidableEq, Repr

/-- Global outline state over `n` selectors: the module-level `outlineCount`
    (line 19), whether the post-render compositing hook is installed on the
    render engine (`threeRenderEngine.onAfterRender`, lines 169–185 — the
    hook renders the `OUTLINE_LAYER` into the auxiliary render target and
    composites it), each selector's `_outlineObject`, and the global
    per-mesh outline flags. -/
structure OutlineSys (n : ℕ) where
  count : ℤ
  hooked : Bool
  outlineOf : Fin n → Option Obj
  meshState : String → MeshOutline

/-- `Selector._clearOutline` (lines 189–198) run by selector `i`: an early
    return when it holds no outline object; otherwise its object's meshes
    get their hooks set to `Noop` and the outline layer disabled, the
    object reference is dropped, the counter decremented, and on reaching
    zero the remover uninstalls the post-render hook. -/
def Selector._clearOutline {n : ℕ} (i : Fin n) (st : OutlineSys n) : OutlineSys n :=
  match st.outlineOf i with
  | none => st
  | some o =>
    let c := st.count - 1
    { count := c
      hooked := if c = 0 then false else st.hooked
      outlineOf := Function.update st.outlineOf i none
      meshState := fun m =>
        if m ∈ o.meshes then ⟨false, none⟩ else st.meshState m }

/-- `Selector._setOutline` (lines 104–187) run by selector `i`: any previous
    outline is cleared first; the new object's meshes get the outline layer
    enabled and render hooks forcing opacity 0.8 when selected, 0.4
    otherwise; the counter is incremented and on the transition to one the
    post-render compositing hook is installed. -/
def Selector._setOutline {n : ℕ} (i : Fin n) (o : Obj) (selected : Bool) (st : OutlineSys n) :
    OutlineSys n :=
  let st1 := Selector._clearOutline i st
  let c := st1.count + 1
  { count := c
    hooked := if c = 1 then true else st1.hooked
    outlineOf := Function.update st1.outlineOf i (some o)
    meshState := fun m =>
      if m ∈ o.meshes then ⟨true, some (if selected then (0.8 : ℚ) else 0.4)⟩
      else st1.meshState m }

/-- The reactive callback installed by `Selector.awake` (lines 39–57):
    on every emission of (hover count, hovered object, groupHovered,
    selected), the outline is set when an object is present and it is
    hovered, group-hovered or selected, and cleared otherwise. -/
def onHoverChange {n : ℕ} (i : Fin n) (hovered : ℕ) (object : Option Obj)
    (groupHovered selected : Bool) (st : OutlineSys n) : OutlineSys n :=
  match object with
  | some o =>
    if hovered != 0 || groupHovered || selected then Selector._setOutline i o selected st
    else Selector._clearOutline i st
  | none => Selector._clearOutline i st

/-- One reactive emission to one selector's awake callback. -/
inductive OutOp (n : ℕ)
  | emit (i : Fin n) (hovered : ℕ) (object : Option Obj) (groupHovered selected : Bool)

/-- Step of the global outline state under one emission. -/
def outStep {n : ℕ} (st : OutlineSys n) : OutOp n → OutlineSys n
  | .emit i hovered object gh sel => onHoverChange i hovered object gh sel st

/-- Initial state: counter zero, hook not installed, no selector holds an
    outline object, all mesh flags clear. -/
def initOutline (n : ℕ) : OutlineSys n :=
  ⟨0, false, fun _ => none, fun _ => ⟨false, none⟩⟩

/-- The C10 invariant: the counter equals the number of selectors that
    currently hold an outline object, and the post-render hook is installed
    exactly when the counter is positive. -/
def OutlineInv {n : ℕ} (st : OutlineSys n) : Prop :=
  st.count = ((Finset.univ.filter (fun i => (st.outlineOf i).isSome)).card : ℤ) ∧
  (st.hooked = true ↔ 0 < st.count)

/-- Updating one slot to `none` removes it from the outline-holders. -/
theorem filter_update_none {n : ℕ} (f : Fin n → Option Obj) (i : Fin n) :
    Finset.univ.filter (fun j => ((Function.update f i none) j).isSome) =
      (Finset.univ.filter (fun j => (f j).isSome)).erase i := by
  ext j
  by_cases hj : j = i <;> simp [Function.update_apply, hj]

/-- Updating one slot to `some o` inserts it among the outline-holders. -/
theorem filter_update_some {n : ℕ} (f : Fin n → Option Obj) (i : Fin n) (o : Obj) :
    Finset.univ.filter (fun j => ((Function.update f i (some o)) j).isSome) =
      insert i (Finset.univ.filter (fun j => (f j).isSome)) := by
  ext j
  by_cases hj : j = i <;> simp [Function.update_apply, hj]

/-- After a clear, the selector holds no outline object. -/
theorem clearOutline_outlineOf_self {n : ℕ} (i : Fin n) (st : OutlineSys n) :
    (Selector._clearOutline i st).outlineOf i = none := by
  unfold Selector._clearOutline
  cases ho : st.outlineOf i with
  | none => exact ho
  | some o => simp [Function.update_same]

/-- A clear resets the flags of every mesh of the cleared object. -/
theorem clearOutline_meshState {n : ℕ} (i : Fin n) (st : OutlineSys n) (o : Obj)
    (ho : st.outlineOf i = some o) (m : String) (hm : m ∈ o.meshes) :
    (Selector._clearOutline i st).meshState m = ⟨false, none⟩ := by
  unfold Selector._clearOutline
  rw [ho]
  simp [hm]

/-- A clear preserves the C10 invariant. -/
theorem clearOutline_inv {n : ℕ} (i : Fin n) (st : OutlineSys n) (h : OutlineInv st) :
    OutlineInv (Selector._clearOutline i st) := by
  obtain ⟨hcount, hhook⟩ := h
  unfold Selector._clearOutline
  cases ho : st.outlineOf i with
  | none => exact ⟨hcount, hhook⟩
  | some o =>
    have hmem : i ∈ Finset.univ.filter (fun j => (st.outlineOf j).isSome) := by
      simp [ho]
    have hpos : 1 ≤ (Finset.univ.filter (fun j => (st.outlineOf j).isSome)).card :=
      Finset.card_pos.mpr ⟨i, hmem⟩
    constructor
    · show st.count - 1 = _
      rw [filter_update_none, Finset.card_erase_of_mem hmem]
      omega
    · show (if st.count - 1 = 0 then false else st.hooked) = true ↔ 0 < st.count - 1
      by_cases hz : st.count - 1 = 0
      · simp [hz]
      · rw [if_neg hz, hhook]
        omega

/-- Projection of `Selector._setOutline` to the counter. -/
theorem setOutline_count {n : ℕ} (i : Fin n) (o : Obj) (selected : Bool)
    (st : OutlineSys n) :
    (Selector._setOutline i o selected st).count = (Selector._clearOutline i st).count + 1 := rfl

/-- Projection of `Selector._setOutline` to the per-selector outline objects. -/
theorem setOutline_outlineOf {n : ℕ} (i : Fin n) (o : Obj) (selected : Bool)
    (st : OutlineSys n) :
    (Selector._setOutline i o selected st).outlineOf =
      Function.update (Selector._clearOutline i st).outlineOf i (some o) := rfl

/-- Projection of `Selector._setOutline` to the hook flag. -/
theorem setOutline_hooked_eq {n : ℕ} (i : Fin n) (o : Obj) (selected : Bool)
    (st : OutlineSys n) :
    (Selector._setOutline i o selected st).hooked =
      (if (Selector._clearOutline i st).count + 1 = 1 then true else (Selector._clearOutline i st).hooked) := rfl

/-- A set (after its internal clear) preserves the C10 invariant. -/
theorem setOutline_inv {n : ℕ} (i : Fin n) (o : Obj) (selected : Bool)
    (st : OutlineSys n) (h : OutlineInv st) : OutlineInv (Selector._setOutline i o selected st) := by
  obtain ⟨hcount1, hhook1⟩ := clearOutline_inv i st h
  have hnone : (Selector._clearOutline i st).outlineOf i = none := clearOutline_outlineOf_self i st
  have hnotmem : i ∉ Finset.univ.filter (fun j => ((Selector._clearOutline i st).outlineOf j).isSome) := by
    simp [hnone]
  have hnn : (0 : ℤ) ≤ (Selector._clearOutline i st).count := by
    rw [hcount1]
    exact_mod_cast Nat.zero_le _
  constructor
  · simp only [setOutline_count, setOutline_outlineOf]
    rw [filter_update_some, Finset.card_insert_of_not_mem hnotmem, hcount1]
    push_cast
    ring
  · simp only [setOutline_count, setOutline_hooked_eq]
    by_cases hz : (Selector._clearOutline i st).count + 1 = 1
    · simp [hz]
    · rw [if_neg hz, hhook1]
      omega

/-- A set leaves the selector holding the new object. -/
theorem setOutline_outlineOf_self {n : ℕ} (i : Fin n) (o : Obj) (selected : Bool)
    (st : OutlineSys n) : (Selector._setOutline i o selected st).outlineOf i = some o := by
  unfold Selector._setOutline
  simp [Function.update_same]

/-- A set enables the outline layer and installs the opacity override on
    every mesh of the object. -/
theorem setOutline_meshState {n : ℕ} (i : Fin n) (o : Obj) (selected : Bool)
    (st : OutlineSys n) (m : String) (hm : m ∈ o.meshes) :
    (Selector._setOutline i o selected st).meshState m =
      ⟨true, some (if selected then (0.8 : ℚ) else 0.4)⟩ := by
  unfold Selector._setOutline
  simp [hm]

/-- From an invariant-satisfying state, a set always leaves the post-render
    hook installed. -/
theorem setOutline_hooked {n : ℕ} (i : Fin n) (o : Obj) (selected : Bool)
    (st : OutlineSys n) (h : OutlineInv st) : (Selector._setOutline i o selected st).hooked = true := by
  obtain ⟨hc, hh⟩ := setOutline_inv i o selected st h
  rw [hh]
  obtain ⟨hcount1, _⟩ := clearOutline_inv i st h
  show 0 < (Selector._clearOutline i st).count + 1
  rw [hcount1]
  positivity

/-- Every emission preserves the C10 invariant. -/
theorem outStep_inv {n : ℕ} (st : OutlineSys n) (op : OutOp n) (h : OutlineInv st) :
    OutlineInv (outStep st op) := by
  cases op with
  | emit i hovered object gh sel =>
    show OutlineInv (onHoverChange i hovered object gh sel st)
    cases object with
    | none => exact clearOutline_inv i st h
    | some o =>
      by_cases hcond : (hovered != 0 || gh || sel) = true
      · simp only [onHoverChange, if_pos hcond]
        exact setOutline_inv i o sel st h
      · simp only [onHoverChange, if_neg hcond]
        exact clearOutline_inv i st h

/-- Folding emissions preserves the C10 invariant. -/
theorem outStep_foldl_inv {n : ℕ} (ops : List (OutOp n)) (st : OutlineSys n)
    (h : OutlineInv st) : OutlineInv (List.foldl outStep st ops) := by
  induction ops generalizing st with
  | nil => exact h
  | cons op rest ih => exact ih _ (outStep_inv st op h)

/-- C10: along every sequence of set/clear emissions across all selectors,
    the global outline counter equals the number of selectors currently
    holding an outline object, and the post-render compositing hook is
    installed exactly when that counter is positive. -/
theorem C10_outline_counter_invariant (n : ℕ) (ops : List (OutOp n)) :
    OutlineInv (List.foldl outStep (initOutline n) ops) := by
  refine outStep_foldl_inv ops (initOutline n) ⟨?_, ?_⟩
  · simp [initOutline]
  · simp [initOutline]

/-- C7: from any invariant-satisfying outline state, a reactive emission
    outlines exactly when an object is present and it is hovered,
    group-hovered or selected: then every mesh of the object has the outline
    layer enabled with opacity forced to 0.8 when selected and 0.4
    otherwise, and the compositing hook into the auxiliary render target is
    installed; otherwise the selector's outline is dropped and the meshes of
    its previously outlined object have the layer disabled and the override
    removed. -/
theorem C7_outline_exactly_when (n : ℕ) (i : Fin n) (hovered : ℕ)
    (object : Option Obj) (groupHovered selected : Bool) (st : OutlineSys n)
    (hinv : OutlineInv st) :
    (∀ o : Obj, object = some o → (hovered != 0 || groupHovered || selected) = true →
      ((onHoverChange i hovered object groupHovered selected st).outlineOf i = some o ∧
       (∀ m, m ∈ o.meshes →
         (onHoverChange i hovered object groupHovered selected st).meshState m =
           ⟨true, some (if selected then (0.8 : ℚ) else 0.4)⟩) ∧
       (onHoverChange i hovered object groupHovered selected st).hooked = true)) ∧
    ((object = none ∨ (hovered != 0 || groupHovered || selected) = false) →
      ((onHoverChange i hovered object groupHovered selected st).outlineOf i = none ∧
       (∀ oPrev : Obj, st.outlineOf i = some oPrev → ∀ m, m ∈ oPrev.meshes →
         (onHoverChange i hovered object groupHovered selected st).meshState m =
           ⟨false, none⟩))) := by
  constructor
  · rintro o rfl hcond
    simp only [onHoverChange, if_pos hcond]
    exact ⟨setOutline_outlineOf_self i o selected st,
      fun m hm => setOutline_meshState i o selected st m hm,
      setOutline_hooked i o selected st hinv⟩
  · intro hoff
    have hclear : onHoverChange i hovered object groupHovered selected st =
        Selector._clearOutline i st := by
      rcases hoff with hobj | hcond
      · rw [hobj]
        rfl
      · cases object with
        | none => rfl
        | some o => simp [onHoverChange, hcond]
    rw [hclear]
    exact ⟨clearOutline_outlineOf_self i st,
      fun oPrev ho m hm => clearOutline_meshState i st oPrev ho m hm⟩

/-- Witness for C7: starting from the empty outline state with one
    selector, an emission with a hovered, selected object outlines its mesh
    with opacity 0.8 and installs the hook. -/
theorem C7_outline_exactly_when_witness :
    (onHoverChange 0 1 (some ⟨["m1"]⟩) false true (initOutline 1)).meshState "m1" =
      ⟨true, some (0.8 : ℚ)⟩ ∧
    (onHoverChange 0 1 (some ⟨["m1"]⟩) false true (initOutline 1)).hooked = true := by
  have h := (C7_outline_exactly_when 1 0 1 (some ⟨["m1"]⟩) false true (initOutline 1)
    (by constructor <;> simp [initOutline])).1 ⟨["m1"]⟩ rfl rfl
  exact ⟨h.2.1 "m1" (by decide), h.2.2⟩

end SceneEditor
